import Mathlib

/-!
# Verification of the Black-Scholes pricing core (src/app.py)

Shallow embedding of the pricing engine of `app.py` over the reals:

* `black_scholes`     — the closed-form pricer (app.py lines 16-29);
* `calc_sigma`        — the historical-volatility part of
  `calculate_option_price` (app.py lines 48-58), acting on an
  already-fetched list of closing prices;
* `app_interface`     — the catch-all wrapper (app.py lines 77-91),
  parametrised by the outcomes of the external collaborators.

Floating-point numbers are embedded as real numbers; the pandas `NaN`
produced by `Series.std()` on fewer than two observations is embedded as
`Option.none`.  `scipy.stats.norm.cdf(x, 0.0, 1.0)` is embedded as the
integral of the standard normal density over `Iic x`.
-/

open Real MeasureTheory Set ProbabilityTheory

/-- Density of the standard normal distribution (mean 0, variance 1). -/
noncomputable def stdNormalPDF (x : ℝ) : ℝ :=
  (Real.sqrt (2 * Real.pi))⁻¹ * Real.exp (-(x ^ 2) / 2)

/-- Embedding of `si.norm.cdf(x, 0.0, 1.0)` of app.py: the standard normal cumulative
distribution function. -/
noncomputable def norm_cdf (x : ℝ) : ℝ := ∫ t in Iic x, stdNormalPDF t

lemma stdNormalPDF_eq_gaussian : stdNormalPDF = gaussianPDFReal 0 1 := by
  funext x
  simp [stdNormalPDF, gaussianPDFReal, neg_div]

lemma integrable_stdNormalPDF : Integrable stdNormalPDF := by
  rw [stdNormalPDF_eq_gaussian]; exact integrable_gaussianPDFReal 0 1

lemma integral_stdNormalPDF : ∫ x, stdNormalPDF x = 1 := by
  rw [stdNormalPDF_eq_gaussian]
  exact integral_gaussianPDFReal_eq_one 0 one_ne_zero

lemma stdNormalPDF_nonneg (x : ℝ) : 0 ≤ stdNormalPDF x := by
  unfold stdNormalPDF
  have h2π : 0 < 2 * Real.pi := by positivity
  positivity

lemma stdNormalPDF_neg (x : ℝ) : stdNormalPDF (-x) = stdNormalPDF x := by
  simp [stdNormalPDF]

lemma continuous_stdNormalPDF : Continuous stdNormalPDF := by
  unfold stdNormalPDF
  fun_prop

lemma norm_cdf_sub (a b : ℝ) :
    norm_cdf b - norm_cdf a = ∫ t in a..b, stdNormalPDF t :=
  intervalIntegral.integral_Iic_sub_Iic
    integrable_stdNormalPDF.integrableOn integrable_stdNormalPDF.integrableOn

lemma norm_cdf_mono : Monotone norm_cdf := by
  intro a b hab
  have h := norm_cdf_sub a b
  have h0 : 0 ≤ ∫ t in a..b, stdNormalPDF t :=
    intervalIntegral.integral_nonneg hab fun u _ => stdNormalPDF_nonneg u
  linarith

lemma norm_cdf_nonneg (x : ℝ) : 0 ≤ norm_cdf x :=
  setIntegral_nonneg measurableSet_Iic fun t _ => stdNormalPDF_nonneg t

lemma norm_cdf_add_neg (x : ℝ) : norm_cdf x + norm_cdf (-x) = 1 := by
  have h1 : norm_cdf (-x) = ∫ t in Ioi x, stdNormalPDF t := by
    have h2 : (∫ t in Iic (-x), stdNormalPDF t)
        = ∫ t in Iic (-x), stdNormalPDF (-t) := by
      simp only [stdNormalPDF_neg]
    rw [norm_cdf, h2, integral_comp_neg_Iic, neg_neg]
  rw [norm_cdf, h1,
    intervalIntegral.integral_Iic_add_Ioi
      integrable_stdNormalPDF.integrableOn integrable_stdNormalPDF.integrableOn,
    integral_stdNormalPDF]

lemma norm_cdf_le_one (x : ℝ) : norm_cdf x ≤ 1 := by
  have h1 := norm_cdf_add_neg x
  have h2 := norm_cdf_nonneg (-x)
  linarith

lemma hasDerivAt_norm_cdf (x : ℝ) : HasDerivAt norm_cdf (stdNormalPDF x) x := by
  have hrepr : norm_cdf = fun u => norm_cdf 0 + ∫ t in (0:ℝ)..u, stdNormalPDF t := by
    funext u
    rw [← norm_cdf_sub 0 u]; ring
  have hd : HasDerivAt (fun u => ∫ t in (0:ℝ)..u, stdNormalPDF t) (stdNormalPDF x) x :=
    intervalIntegral.integral_hasDerivAt_right
      integrable_stdNormalPDF.intervalIntegrable
      (continuous_stdNormalPDF.stronglyMeasurableAtFilter volume (nhds x))
      continuous_stdNormalPDF.continuousAt
  rw [hrepr]
  simpa using (hasDerivAt_const x (norm_cdf 0)).add hd

/-! ## The pricer `black_scholes` (app.py lines 16-29) -/

/-- The quantity `d1` as computed at app.py line 17. -/
noncomputable def d1 (S K T r sigma q : ℝ) : ℝ :=
  (Real.log (S / K) + (r - q + 0.5 * sigma ^ 2) * T) / (sigma * Real.sqrt T)

/-- The quantity `d2` as computed at app.py line 18. -/
noncomputable def d2 (S K T r sigma q : ℝ) : ℝ :=
  d1 S K T r sigma q - sigma * Real.sqrt T

/-- The call branch of `black_scholes` (app.py lines 21-22). -/
noncomputable def callPrice (S K T r sigma q : ℝ) : ℝ :=
  S * Real.exp (-q * T) * norm_cdf (d1 S K T r sigma q) -
    K * Real.exp (-r * T) * norm_cdf (d2 S K T r sigma q)

/-- The put branch of `black_scholes` (app.py lines 24-25). -/
noncomputable def putPrice (S K T r sigma q : ℝ) : ℝ :=
  K * Real.exp (-r * T) * norm_cdf (-(d2 S K T r sigma q)) -
    S * Real.exp (-q * T) * norm_cdf (-(d1 S K T r sigma q))

/-- The one exception `black_scholes` can raise: the `ValueError` at
app.py line 27 for an option type other than `call`/`put`. -/
inductive BSError where
  | invalidOptionType
  deriving DecidableEq

/-- The function `black_scholes(S, K, T, r, sigma, q, option_type)` of app.py
lines 16-29: compute `d1`, `d2`, then price the requested branch, and
raise `ValueError` for an unknown option type. -/
noncomputable def black_scholes (S K T r sigma q : ℝ) (option_type : String) :
    Except BSError ℝ :=
  if option_type = "call" then Except.ok (callPrice S K T r sigma q)
  else if option_type = "put" then Except.ok (putPrice S K T r sigma q)
  else Except.error BSError.invalidOptionType

/-! ## Algebraic facts about `d1`, `d2` and the normal density -/

lemma d1_mul_denom (S K T r sigma q : ℝ) (hT : 0 < T) (hs : 0 < sigma) :
    d1 S K T r sigma q * (sigma * Real.sqrt T)
      = Real.log (S / K) + (r - q + 0.5 * sigma ^ 2) * T := by
  have hden : sigma * Real.sqrt T ≠ 0 :=
    ne_of_gt (mul_pos hs (Real.sqrt_pos.mpr hT))
  rw [d1, div_mul_cancel₀ _ hden]

lemma d1_sq_sub_d2_sq (S K T r sigma q : ℝ) (hT : 0 < T) (hs : 0 < sigma) :
    d1 S K T r sigma q ^ 2 / 2 - d2 S K T r sigma q ^ 2 / 2
      = Real.log (S / K) + (r - q) * T := by
  have hm := d1_mul_denom S K T r sigma q hT hs
  have hsq : Real.sqrt T ^ 2 = T := Real.sq_sqrt hT.le
  have hc2 : (sigma * Real.sqrt T) ^ 2 = sigma ^ 2 * T := by
    rw [mul_pow, hsq]
  have hexp : d1 S K T r sigma q ^ 2 / 2 - d2 S K T r sigma q ^ 2 / 2
      = d1 S K T r sigma q * (sigma * Real.sqrt T) - (sigma * Real.sqrt T) ^ 2 / 2 := by
    rw [d2]; ring
  rw [hexp, hm, hc2]; ring

/-- The classical cancellation identity behind the Black-Scholes greeks:
`S·e^(−qT)·φ(d1) = K·e^(−rT)·φ(d2)`. -/
lemma pdf_identity (S K T r sigma q : ℝ) (hS : 0 < S) (hK : 0 < K)
    (hT : 0 < T) (hs : 0 < sigma) :
    S * Real.exp (-q * T) * stdNormalPDF (d1 S K T r sigma q)
      = K * Real.exp (-r * T) * stdNormalPDF (d2 S K T r sigma q) := by
  have hkey := d1_sq_sub_d2_sq S K T r sigma q hT hs
  have hpdf : stdNormalPDF (d1 S K T r sigma q)
      = stdNormalPDF (d2 S K T r sigma q)
        * Real.exp (-(Real.log (S / K) + (r - q) * T)) := by
    unfold stdNormalPDF
    rw [mul_assoc, ← Real.exp_add]
    congr 1
    rw [Real.exp_eq_exp]
    linarith
  have hX : Real.exp (-(Real.log (S / K) + (r - q) * T))
      = K / S * Real.exp ((q - r) * T) := by
    rw [neg_add, Real.exp_add]
    congr 1
    · rw [← Real.log_inv, Real.exp_log (by positivity : (0:ℝ) < (S / K)⁻¹), inv_div]
    · congr 1; ring
  rw [hpdf, hX]
  have he : Real.exp (-q * T) * Real.exp ((q - r) * T) = Real.exp (-r * T) := by
    rw [← Real.exp_add]; congr 1; ring
  have hSS : S * (K / S) = K := by field_simp
  calc S * Real.exp (-q * T)
        * (stdNormalPDF (d2 S K T r sigma q) * (K / S * Real.exp ((q - r) * T)))
      = S * (K / S) * (Real.exp (-q * T) * Real.exp ((q - r) * T))
          * stdNormalPDF (d2 S K T r sigma q) := by ring
    _ = K * Real.exp (-r * T) * stdNormalPDF (d2 S K T r sigma q) := by
        rw [hSS, he]

/-- Put-call parity for the two branches of `black_scholes`; it holds for
all real parameters because `Φ(x) + Φ(−x) = 1`. -/
lemma call_sub_put (S K T r sigma q : ℝ) :
    callPrice S K T r sigma q - putPrice S K T r sigma q
      = S * Real.exp (-q * T) - K * Real.exp (-r * T) := by
  unfold callPrice putPrice
  have h1 := norm_cdf_add_neg (d1 S K T r sigma q)
  have h2 := norm_cdf_add_neg (d2 S K T r sigma q)
  linear_combination (S * Real.exp (-q * T)) * h1 - (K * Real.exp (-r * T)) * h2

lemma putPrice_eq (S K T r sigma q : ℝ) :
    putPrice S K T r sigma q
      = callPrice S K T r sigma q - S * Real.exp (-q * T) + K * Real.exp (-r * T) := by
  have h := call_sub_put S K T r sigma q
  linarith

/-! ## Derivatives of the two branches in `S` and in `K` -/

lemma hasDerivAt_d1_in_S (S K T r sigma q : ℝ) (hS : 0 < S) (hK : 0 < K) :
    HasDerivAt (fun s => d1 s K T r sigma q) (1 / S / (sigma * Real.sqrt T)) S := by
  simp only [d1]
  have h1 : HasDerivAt (fun s : ℝ => s / K) (1 / K) S := by
    simpa using (hasDerivAt_id S).div_const K
  have h2 : HasDerivAt (fun s : ℝ => Real.log (s / K)) (1 / S) S := by
    have h3 := h1.log (ne_of_gt (div_pos hS hK))
    have h4 : 1 / K / (S / K) = 1 / S := by
      field_simp
    rwa [h4] at h3
  exact (h2.add_const ((r - q + 0.5 * sigma ^ 2) * T)).div_const (sigma * Real.sqrt T)

lemma hasDerivAt_d2_in_S (S K T r sigma q : ℝ) (hS : 0 < S) (hK : 0 < K) :
    HasDerivAt (fun s => d2 s K T r sigma q) (1 / S / (sigma * Real.sqrt T)) S := by
  simp only [d2]
  exact (hasDerivAt_d1_in_S S K T r sigma q hS hK).sub_const (sigma * Real.sqrt T)

lemma hasDerivAt_d1_in_K (S K T r sigma q : ℝ) (hS : 0 < S) (hK : 0 < K) :
    HasDerivAt (fun k => d1 S k T r sigma q) (-(1 / K) / (sigma * Real.sqrt T)) K := by
  simp only [d1]
  have h1 : HasDerivAt (fun k : ℝ => S / k) (-(S / K ^ 2)) K := by
    have h0 := (hasDerivAt_inv (ne_of_gt hK)).const_mul S
    have hf : (fun k : ℝ => S * k⁻¹) = fun k : ℝ => S / k := by
      funext k; rw [div_eq_mul_inv]
    have hv : S * -(K ^ 2)⁻¹ = -(S / K ^ 2) := by
      field_simp
    rwa [hf, hv] at h0
  have h2 := h1.log (ne_of_gt (div_pos hS hK))
  have h3 : -(S / K ^ 2) / (S / K) = -(1 / K) := by
    have hS0 : S ≠ 0 := ne_of_gt hS
    have hK0 : K ≠ 0 := ne_of_gt hK
    field_simp
    ring
  rw [h3] at h2
  exact (h2.add_const ((r - q + 0.5 * sigma ^ 2) * T)).div_const (sigma * Real.sqrt T)

lemma hasDerivAt_d2_in_K (S K T r sigma q : ℝ) (hS : 0 < S) (hK : 0 < K) :
    HasDerivAt (fun k => d2 S k T r sigma q) (-(1 / K) / (sigma * Real.sqrt T)) K := by
  simp only [d2]
  exact (hasDerivAt_d1_in_K S K T r sigma q hS hK).sub_const (sigma * Real.sqrt T)

/-- Derivative of the call branch in the spot: the Black-Scholes delta
`e^(−qT)·Φ(d1)`. -/
lemma hasDerivAt_call_in_S (S K T r sigma q : ℝ) (hS : 0 < S) (hK : 0 < K)
    (hT : 0 < T) (hs : 0 < sigma) :
    HasDerivAt (fun s => callPrice s K T r sigma q)
      (Real.exp (-q * T) * norm_cdf (d1 S K T r sigma q)) S := by
  simp only [callPrice]
  have hd1 := hasDerivAt_d1_in_S S K T r sigma q hS hK
  have hd2 := hasDerivAt_d2_in_S S K T r sigma q hS hK
  have hc1 : HasDerivAt (fun s => norm_cdf (d1 s K T r sigma q))
      (stdNormalPDF (d1 S K T r sigma q) * (1 / S / (sigma * Real.sqrt T))) S := by
    simpa [Function.comp] using (hasDerivAt_norm_cdf (d1 S K T r sigma q)).comp S hd1
  have hc2 : HasDerivAt (fun s => norm_cdf (d2 s K T r sigma q))
      (stdNormalPDF (d2 S K T r sigma q) * (1 / S / (sigma * Real.sqrt T))) S := by
    simpa [Function.comp] using (hasDerivAt_norm_cdf (d2 S K T r sigma q)).comp S hd2
  have hlin : HasDerivAt (fun s : ℝ => s * Real.exp (-q * T)) (Real.exp (-q * T)) S := by
    simpa using (hasDerivAt_id S).mul_const (Real.exp (-q * T))
  have hsum := (hlin.mul hc1).sub (hc2.const_mul (K * Real.exp (-r * T)))
  have hid := pdf_identity S K T r sigma q hS hK hT hs
  have hval : Real.exp (-q * T) * norm_cdf (d1 S K T r sigma q)
      = Real.exp (-q * T) * norm_cdf (d1 S K T r sigma q)
          + S * Real.exp (-q * T)
            * (stdNormalPDF (d1 S K T r sigma q) * (1 / S / (sigma * Real.sqrt T)))
          - K * Real.exp (-r * T)
            * (stdNormalPDF (d2 S K T r sigma q) * (1 / S / (sigma * Real.sqrt T))) := by
    linear_combination (-(1 / S / (sigma * Real.sqrt T))) * hid
  rw [hval]
  exact hsum

/-- Derivative of the call branch in the strike: `−e^(−rT)·Φ(d2)`. -/
lemma hasDerivAt_call_in_K (S K T r sigma q : ℝ) (hS : 0 < S) (hK : 0 < K)
    (hT : 0 < T) (hs : 0 < sigma) :
    HasDerivAt (fun k => callPrice S k T r sigma q)
      (-(Real.exp (-r * T) * norm_cdf (d2 S K T r sigma q))) K := by
  simp only [callPrice]
  have hd1 := hasDerivAt_d1_in_K S K T r sigma q hS hK
  have hd2 := hasDerivAt_d2_in_K S K T r sigma q hS hK
  have hc1 : HasDerivAt (fun k => norm_cdf (d1 S k T r sigma q))
      (stdNormalPDF (d1 S K T r sigma q) * (-(1 / K) / (sigma * Real.sqrt T))) K := by
    simpa [Function.comp] using (hasDerivAt_norm_cdf (d1 S K T r sigma q)).comp K hd1
  have hc2 : HasDerivAt (fun k => norm_cdf (d2 S k T r sigma q))
      (stdNormalPDF (d2 S K T r sigma q) * (-(1 / K) / (sigma * Real.sqrt T))) K := by
    simpa [Function.comp] using (hasDerivAt_norm_cdf (d2 S K T r sigma q)).comp K hd2
  have hlin : HasDerivAt (fun k : ℝ => k * Real.exp (-r * T)) (Real.exp (-r * T)) K := by
    simpa using (hasDerivAt_id K).mul_const (Real.exp (-r * T))
  have hsum := (hc1.const_mul (S * Real.exp (-q * T))).sub (hlin.mul hc2)
  have hid := pdf_identity S K T r sigma q hS hK hT hs
  have hval : -(Real.exp (-r * T) * norm_cdf (d2 S K T r sigma q))
      = S * Real.exp (-q * T)
          * (stdNormalPDF (d1 S K T r sigma q) * (-(1 / K) / (sigma * Real.sqrt T)))
        - (Real.exp (-r * T) * norm_cdf (d2 S K T r sigma q)
          + K * Real.exp (-r * T)
            * (stdNormalPDF (d2 S K T r sigma q) * (-(1 / K) / (sigma * Real.sqrt T)))) := by
    linear_combination (1 / K / (sigma * Real.sqrt T)) * hid
  rw [hval]
  exact hsum

/-- Derivative of the put branch in the spot: `−e^(−qT)·Φ(−d1)`, written
with the parity form `e^(−qT)·Φ(d1) − e^(−qT)`. -/
lemma hasDerivAt_put_in_S (S K T r sigma q : ℝ) (hS : 0 < S) (hK : 0 < K)
    (hT : 0 < T) (hs : 0 < sigma) :
    HasDerivAt (fun s => putPrice s K T r sigma q)
      (Real.exp (-q * T) * norm_cdf (d1 S K T r sigma q) - Real.exp (-q * T)) S := by
  have hfun : (fun s => putPrice s K T r sigma q)
      = fun s => callPrice s K T r sigma q - s * Real.exp (-q * T)
          + K * Real.exp (-r * T) := by
    funext s; rw [putPrice_eq]
  rw [hfun]
  have hlin : HasDerivAt (fun s : ℝ => s * Real.exp (-q * T)) (Real.exp (-q * T)) S := by
    simpa using (hasDerivAt_id S).mul_const (Real.exp (-q * T))
  exact ((hasDerivAt_call_in_S S K T r sigma q hS hK hT hs).sub hlin).add_const _

/-- Derivative of the put branch in the strike: `e^(−rT)·Φ(−d2)`, written
with the parity form `e^(−rT) − e^(−rT)·Φ(d2)`. -/
lemma hasDerivAt_put_in_K (S K T r sigma q : ℝ) (hS : 0 < S) (hK : 0 < K)
    (hT : 0 < T) (hs : 0 < sigma) :
    HasDerivAt (fun k => putPrice S k T r sigma q)
      (-(Real.exp (-r * T) * norm_cdf (d2 S K T r sigma q)) + Real.exp (-r * T)) K := by
  have hfun : (fun k => putPrice S k T r sigma q)
      = fun k => callPrice S k T r sigma q - S * Real.exp (-q * T)
          + k * Real.exp (-r * T) := by
    funext k; rw [putPrice_eq]
  rw [hfun]
  have hlin : HasDerivAt (fun k : ℝ => k * Real.exp (-r * T)) (Real.exp (-r * T)) K := by
    simpa using (hasDerivAt_id K).mul_const (Real.exp (-r * T))
  exact ((hasDerivAt_call_in_K S K T r sigma q hS hK hT hs).sub_const _).add hlin

/-! ## Monotonicity of the two branches on `Ioi 0` -/

lemma callPrice_monotoneOn_S (K T r sigma q : ℝ) (hK : 0 < K) (hT : 0 < T)
    (hs : 0 < sigma) :
    MonotoneOn (fun s => callPrice s K T r sigma q) (Ioi (0:ℝ)) := by
  have hder : ∀ s ∈ Ioi (0:ℝ), HasDerivAt (fun s => callPrice s K T r sigma q)
      (Real.exp (-q * T) * norm_cdf (d1 s K T r sigma q)) s :=
    fun s hs0 => hasDerivAt_call_in_S s K T r sigma q hs0 hK hT hs
  have hdiff : DifferentiableOn ℝ (fun s => callPrice s K T r sigma q)
      (interior (Ioi (0:ℝ))) := by
    rw [interior_Ioi]
    exact fun s hs0 => (hder s hs0).differentiableAt.differentiableWithinAt
  refine monotoneOn_of_deriv_nonneg (convex_Ioi 0) ?_ hdiff ?_
  · exact fun s hs0 => (hder s hs0).differentiableAt.continuousAt.continuousWithinAt
  · intro s hs0
    rw [interior_Ioi] at hs0
    rw [(hder s hs0).deriv]
    exact mul_nonneg (Real.exp_pos _).le (norm_cdf_nonneg _)

lemma callPrice_antitoneOn_K (S T r sigma q : ℝ) (hS : 0 < S) (hT : 0 < T)
    (hs : 0 < sigma) :
    AntitoneOn (fun k => callPrice S k T r sigma q) (Ioi (0:ℝ)) := by
  have hder : ∀ k ∈ Ioi (0:ℝ), HasDerivAt (fun k => callPrice S k T r sigma q)
      (-(Real.exp (-r * T) * norm_cdf (d2 S k T r sigma q))) k :=
    fun k hk0 => hasDerivAt_call_in_K S k T r sigma q hS hk0 hT hs
  have hdiff : DifferentiableOn ℝ (fun k => callPrice S k T r sigma q)
      (interior (Ioi (0:ℝ))) := by
    rw [interior_Ioi]
    exact fun k hk0 => (hder k hk0).differentiableAt.differentiableWithinAt
  refine antitoneOn_of_deriv_nonpos (convex_Ioi 0) ?_ hdiff ?_
  · exact fun k hk0 => (hder k hk0).differentiableAt.continuousAt.continuousWithinAt
  · intro k hk0
    rw [interior_Ioi] at hk0
    rw [(hder k hk0).deriv]
    exact neg_nonpos.mpr (mul_nonneg (Real.exp_pos _).le (norm_cdf_nonneg _))

lemma putPrice_antitoneOn_S (K T r sigma q : ℝ) (hK : 0 < K) (hT : 0 < T)
    (hs : 0 < sigma) :
    AntitoneOn (fun s => putPrice s K T r sigma q) (Ioi (0:ℝ)) := by
  have hder : ∀ s ∈ Ioi (0:ℝ), HasDerivAt (fun s => putPrice s K T r sigma q)
      (Real.exp (-q * T) * norm_cdf (d1 s K T r sigma q) - Real.exp (-q * T)) s :=
    fun s hs0 => hasDerivAt_put_in_S s K T r sigma q hs0 hK hT hs
  have hdiff : DifferentiableOn ℝ (fun s => putPrice s K T r sigma q)
      (interior (Ioi (0:ℝ))) := by
    rw [interior_Ioi]
    exact fun s hs0 => (hder s hs0).differentiableAt.differentiableWithinAt
  refine antitoneOn_of_deriv_nonpos (convex_Ioi 0) ?_ hdiff ?_
  · exact fun s hs0 => (hder s hs0).differentiableAt.continuousAt.continuousWithinAt
  · intro s hs0
    rw [interior_Ioi] at hs0
    rw [(hder s hs0).deriv]
    have h1 := norm_cdf_le_one (d1 s K T r sigma q)
    have h2 := Real.exp_pos (-q * T)
    nlinarith

lemma putPrice_monotoneOn_K (S T r sigma q : ℝ) (hS : 0 < S) (hT : 0 < T)
    (hs : 0 < sigma) :
    MonotoneOn (fun k => putPrice S k T r sigma q) (Ioi (0:ℝ)) := by
  have hder : ∀ k ∈ Ioi (0:ℝ), HasDerivAt (fun k => putPrice S k T r sigma q)
      (-(Real.exp (-r * T) * norm_cdf (d2 S k T r sigma q)) + Real.exp (-r * T)) k :=
    fun k hk0 => hasDerivAt_put_in_K S k T r sigma q hS hk0 hT hs
  have hdiff : DifferentiableOn ℝ (fun k => putPrice S k T r sigma q)
      (interior (Ioi (0:ℝ))) := by
    rw [interior_Ioi]
    exact fun k hk0 => (hder k hk0).differentiableAt.differentiableWithinAt
  refine monotoneOn_of_deriv_nonneg (convex_Ioi 0) ?_ hdiff ?_
  · exact fun k hk0 => (hder k hk0).differentiableAt.continuousAt.continuousWithinAt
  · intro k hk0
    rw [interior_Ioi] at hk0
    rw [(hder k hk0).deriv]
    have h1 := norm_cdf_le_one (d2 S k T r sigma q)
    have h2 := Real.exp_pos (-r * T)
    nlinarith

/-! ## The volatility computation (app.py lines 48-58) -/

/-- The sequence `np.log(hist_data['Close'] / hist_data['Close'].shift(1))`
restricted to its defined entries: element `i` is
`log(close[i+1] / close[i])`; the leading `NaN` produced by `shift(1)` is
dropped (pandas `std` skips it). -/
noncomputable def logReturns (closes : List ℝ) : List ℝ :=
  List.zipWith (fun p c => Real.log (c / p)) closes closes.tail

/-- Arithmetic mean of a list (pandas `Series.mean` on the valid entries). -/
noncomputable def listMean (xs : List ℝ) : ℝ := xs.sum / xs.length

/-- pandas `Series.std()` on a list of valid observations: the sample
standard deviation with the `ddof = 1` divisor; pandas returns `NaN`
(here `none`) when fewer than two observations remain. -/
noncomputable def pandasStd (xs : List ℝ) : Option ℝ :=
  if xs.length < 2 then none
  else some (Real.sqrt ((xs.map fun x => (x - listMean xs) ^ 2).sum / ((xs.length : ℝ) - 1)))

/-- app.py lines 51-52: `sigma = returns.std() * np.sqrt(252)` where
`returns` are the consecutive log returns of the closing prices. -/
noncomputable def annualizedSigma (closes : List ℝ) : Option ℝ :=
  (pandasStd (logReturns closes)).map fun s => s * Real.sqrt 252

/-- The one exception raised by the volatility part of
`calculate_option_price`: the `ValueError` at app.py line 49 when the
fetched history is empty. -/
inductive CalcError where
  | noHistoricalData
  deriving DecidableEq

/-- app.py lines 48-52 of `calculate_option_price`, acting on the list of
already-fetched closing prices: raise `ValueError` when the history is
empty, otherwise compute the annualized volatility (`none` embeds the
`NaN` that pandas produces from fewer than two log returns). -/
noncomputable def calc_sigma (closes : List ℝ) : Except CalcError (Option ℝ) :=
  if closes.isEmpty then Except.error CalcError.noHistoricalData
  else Except.ok (annualizedSigma closes)

/-! ## The top-level wrapper `app_interface` (app.py lines 77-91) -/

/-- The function `app_interface` of app.py lines 77-91, parametrised by the outcomes of
its collaborators: `calcResult` is the outcome of
`calculate_option_price` (price, current price, volatility — or the
message of whatever exception the workflow raised), `plotResult` the
outcome of `plot_stock_data`, and `render` the numeric formatting of the
success message (string formatting of floats is external to the core).
Any exception is caught and turned into an error message paired with a
`None` chart. -/
def app_interface {Chart : Type} (render : ℝ × ℝ × ℝ → String)
    (calcResult : Except String (ℝ × ℝ × ℝ))
    (plotResult : Except String (Option Chart)) : String × Option Chart :=
  match calcResult with
  | Except.error e => ("An error occurred: " ++ e, none)
  | Except.ok v =>
    match plotResult with
    | Except.error e => ("An error occurred: " ++ e, none)
    | Except.ok chart => (render v, chart)

/-! ## Spec-side definitions (written from the claims, for refinement) -/

/-- The quantity `d1` exactly as the claim words it:
`(ln(S/K) + (r − q + sigma^2/2)·T) / (sigma·√T)`. -/
noncomputable def d1_spec (S K T r sigma q : ℝ) : ℝ :=
  (Real.log (S / K) + (r - q + sigma ^ 2 / 2) * T) / (sigma * Real.sqrt T)

/-- Call value exactly as the claim words it:
`S·e^(−qT)·Φ(d1) − K·e^(−rT)·Φ(d2)` with `d2 = d1 − sigma·√T`. -/
noncomputable def callValue_spec (S K T r sigma q : ℝ) : ℝ :=
  S * Real.exp (-q * T) * norm_cdf (d1_spec S K T r sigma q)
    - K * Real.exp (-r * T) * norm_cdf (d1_spec S K T r sigma q - sigma * Real.sqrt T)

/-- Put value exactly as the claim words it:
`K·e^(−rT)·Φ(−d2) − S·e^(−qT)·Φ(−d1)`. -/
noncomputable def putValue_spec (S K T r sigma q : ℝ) : ℝ :=
  K * Real.exp (-r * T) * norm_cdf (-(d1_spec S K T r sigma q - sigma * Real.sqrt T))
    - S * Real.exp (-q * T) * norm_cdf (-(d1_spec S K T r sigma q))

lemma d1_spec_eq (S K T r sigma q : ℝ) :
    d1_spec S K T r sigma q = d1 S K T r sigma q := by
  unfold d1_spec d1
  ring_nf

lemma callValue_spec_eq (S K T r sigma q : ℝ) :
    callValue_spec S K T r sigma q = callPrice S K T r sigma q := by
  unfold callValue_spec callPrice d2
  rw [d1_spec_eq]

lemma putValue_spec_eq (S K T r sigma q : ℝ) :
    putValue_spec S K T r sigma q = putPrice S K T r sigma q := by
  unfold putValue_spec putPrice d2
  rw [d1_spec_eq]

/-- Log returns exactly as the claim words them: element `i` of the
sequence is `ln(price[i+1] / price[i])`, for `i = 0, …, n−2`. -/
noncomputable def specLogReturns (closes : List ℝ) : List ℝ :=
  (List.range (closes.length - 1)).map fun i =>
    Real.log (closes.getD (i + 1) 0 / closes.getD i 0)

/-- Sample standard deviation with the conventional `n−1` divisor, as the
claim words it; undefined (pandas `NaN`) for fewer than two samples. -/
noncomputable def specSampleStd (xs : List ℝ) : Option ℝ :=
  if xs.length < 2 then none
  else some (Real.sqrt ((1 / ((xs.length : ℝ) - 1))
    * (xs.map fun x => (x - listMean xs) ^ 2).sum))

/-- Annualized volatility as the claim words it, with a configurable
annualization factor. -/
noncomputable def specVolatility (closes : List ℝ) (annualizationFactor : ℕ) : Option ℝ :=
  (specSampleStd (specLogReturns closes)).map
    fun s => s * Real.sqrt (annualizationFactor : ℝ)

lemma specLogReturns_eq (closes : List ℝ) :
    specLogReturns closes = logReturns closes := by
  induction closes with
  | nil => rfl
  | cons p rest ih =>
    cases rest with
    | nil => rfl
    | cons c t =>
      unfold specLogReturns logReturns at ih ⊢
      simp only [List.tail_cons, List.zipWith_cons_cons, List.length_cons,
        Nat.add_sub_cancel] at ih ⊢
      rw [List.range_succ_eq_map]
      simp only [List.map_cons, List.map_map, List.getD_cons_succ, List.getD_cons_zero]
      refine List.cons_eq_cons.mpr ⟨rfl, ?_⟩
      rw [← ih]
      refine List.map_congr_left fun i _ => ?_
      simp [Function.comp, Nat.succ_eq_add_one, List.getD_cons_succ]

lemma specSampleStd_eq (xs : List ℝ) : specSampleStd xs = pandasStd xs := by
  unfold specSampleStd pandasStd
  by_cases h : xs.length < 2
  · rw [if_pos h, if_pos h]
  · rw [if_neg h, if_neg h, one_div, inv_mul_eq_div]

lemma logReturns_length (closes : List ℝ) :
    (logReturns closes).length = closes.length - 1 := by
  unfold logReturns
  rw [List.length_zipWith, List.length_tail]
  omega

/-! ## Claims -/

/-- C1: for positive `S`, `K`, `T`, `sigma` and real `r`, `q`, the pricer
returns exactly the closed-form Black-Scholes-Merton value, with `d1` and
`d2` as the spec writes them, for both the call and the put branch. -/
theorem C1_closed_form_price (S K T r sigma q : ℝ)
    (hS : 0 < S) (hK : 0 < K) (hT : 0 < T) (hs : 0 < sigma) :
    black_scholes S K T r sigma q "call"
        = Except.ok (callValue_spec S K T r sigma q) ∧
    black_scholes S K T r sigma q "put"
        = Except.ok (putValue_spec S K T r sigma q) := by
  constructor
  · rw [callValue_spec_eq]; rfl
  · rw [putValue_spec_eq]; rfl

/-- Witness for C1 at `S = K = T = sigma = 1`, `r = q = 0`. -/
theorem C1_closed_form_price_witness :
    black_scholes 1 1 1 0 1 0 "call" = Except.ok (callValue_spec 1 1 1 0 1 0) ∧
    black_scholes 1 1 1 0 1 0 "put" = Except.ok (putValue_spec 1 1 1 0 1 0) :=
  C1_closed_form_price 1 1 1 0 1 0 one_pos one_pos one_pos one_pos

/-- C2: put-call parity — whenever the pricer returns a call price `c` and
a put price `p` for the same positive parameters, then
`c − p = S·e^(−qT) − K·e^(−rT)` exactly, over the real-number embedding. -/
theorem C2_put_call_parity (S K T r sigma q : ℝ)
    (hS : 0 < S) (hK : 0 < K) (hT : 0 < T) (hs : 0 < sigma) (c p : ℝ)
    (hc : black_scholes S K T r sigma q "call" = Except.ok c)
    (hp : black_scholes S K T r sigma q "put" = Except.ok p) :
    c - p = S * Real.exp (-q * T) - K * Real.exp (-r * T) := by
  have hc2 : callPrice S K T r sigma q = c := by
    have h := hc
    simp only [black_scholes, if_pos] at h
    simpa using h
  have hp2 : putPrice S K T r sigma q = p := by
    have h := hp
    simp only [black_scholes] at h
    simpa using h
  rw [← hc2, ← hp2]
  exact call_sub_put S K T r sigma q

/-- Witness for C2 at `S = K = T = sigma = 1`, `r = q = 0`. -/
theorem C2_put_call_parity_witness :
    callPrice 1 1 1 0 1 0 - putPrice 1 1 1 0 1 0
      = 1 * Real.exp (-0 * 1) - 1 * Real.exp (-0 * 1) :=
  C2_put_call_parity 1 1 1 0 1 0 one_pos one_pos one_pos one_pos _ _ rfl rfl

/-- C3: on a series of at least two strictly positive closes, the code's
volatility (`returns.std() * np.sqrt(252)`) equals the sample standard
deviation (conventional `n−1` divisor) of the consecutive log returns
multiplied by `sqrt(annualizationFactor)`, at the conventional factor 252
(the only value the code uses). -/
theorem C3_volatility_formula (closes : List ℝ) (h2 : 2 ≤ closes.length)
    (hpos : ∀ p ∈ closes, 0 < p) :
    annualizedSigma closes = specVolatility closes 252 := by
  unfold annualizedSigma specVolatility
  rw [specLogReturns_eq, specSampleStd_eq]
  have h252 : Real.sqrt ((252:ℕ) : ℝ) = Real.sqrt 252 := by norm_num
  rw [h252]

/-- Witness for C3 on the series `[1, 2, 3]`. -/
theorem C3_volatility_formula_witness :
    annualizedSigma [(1:ℝ), 2, 3] = specVolatility [(1:ℝ), 2, 3] 252 :=
  C3_volatility_formula [(1:ℝ), 2, 3] (by norm_num)
    (by intro p hp; fin_cases hp <;> norm_num)

/-- C4 counterexample: with `sigma = 0` (and otherwise valid parameters)
`black_scholes` does not raise any error — it computes a price, so the
claimed `InvalidParameterError` does not exist in the code. -/
theorem C4_counterexample_sigma_zero :
    (black_scholes 100 100 1 0.05 0 0 "call").isOk = true := rfl

/-- C4 amended: the pricer performs no validation of its numeric
parameters at all — for every real `S`, `K`, `T`, `r`, `sigma`, `q`
(including zero and negative values) both the call and the put branch
return a value, never an error. -/
theorem C4_amended_no_numeric_validation (S K T r sigma q : ℝ) :
    (black_scholes S K T r sigma q "call").isOk = true ∧
    (black_scholes S K T r sigma q "put").isOk = true := by
  constructor <;> rfl

/-- C5 counterexample: a price series of length 1 does not raise — the
history is non-empty, so the code silently produces a `NaN` volatility
(embedded `none`) instead of the claimed `InsufficientDataError`. -/
theorem C5_counterexample_single_price :
    calc_sigma [(100:ℝ)] = Except.ok none := rfl

/-- C5 amended: the volatility step raises (the `ValueError` of app.py
line 49) exactly when the fetched series is empty; a single-price series
instead silently yields a `NaN` volatility (embedded `none`). -/
theorem C5_amended_empty_check_only (closes : List ℝ) :
    (calc_sigma closes = Except.error CalcError.noHistoricalData ↔ closes = []) ∧
    ∀ p : ℝ, calc_sigma [p] = Except.ok none := by
  refine ⟨?_, fun p => rfl⟩
  cases closes with
  | nil => simp [calc_sigma]
  | cons a t => simp [calc_sigma]

/-- Witness for C5 on the empty series. -/
theorem C5_amended_empty_check_only_witness :
    calc_sigma ([] : List ℝ) = Except.error CalcError.noHistoricalData :=
  (C5_amended_empty_check_only []).1.mpr rfl

/-- C6 counterexample: a series containing a zero price is processed
without any error — there is no `InvalidPriceError` in the code. -/
theorem C6_counterexample_zero_price :
    (calc_sigma [(100:ℝ), 0, 100]).isOk = true := rfl

/-- C6 amended: the volatility step never inspects the prices — every
non-empty series (whatever its values, zero and negative included) is
processed without an error; in floats a non-positive price silently
yields `NaN`/`±inf` log returns instead of a typed failure. -/
theorem C6_amended_no_price_validation (closes : List ℝ) (hne : closes ≠ []) :
    (calc_sigma closes).isOk = true := by
  cases closes with
  | nil => exact absurd rfl hne
  | cons a t => rfl

/-- Witness for C6 on the series `[1]`. -/
theorem C6_amended_no_price_validation_witness :
    (calc_sigma [(1:ℝ)]).isOk = true :=
  C6_amended_no_price_validation [(1:ℝ)] (by simp)

/-- C7 counterexample: on exactly two strictly positive prices there is
only one log return, and pandas `std()` with its `n−1` divisor returns
`NaN` (embedded `none`) — not the finite non-negative value the claim
promises for every series of at least 2 prices. -/
theorem C7_counterexample_two_prices :
    annualizedSigma [(100:ℝ), 101] = none := rfl

/-- C7 amended: for at least **3** strictly positive prices (hence at
least two log returns) the volatility estimate is defined and
non-negative; finiteness is automatic in the real embedding. -/
theorem C7_amended_nonneg (closes : List ℝ) (h3 : 3 ≤ closes.length)
    (hpos : ∀ p ∈ closes, 0 < p) :
    annualizedSigma closes ≠ none ∧ 0 ≤ (annualizedSigma closes).getD 0 := by
  unfold annualizedSigma pandasStd
  have hlen : ¬ (logReturns closes).length < 2 := by
    rw [logReturns_length]; omega
  rw [if_neg hlen]
  exact ⟨Option.some_ne_none _,
    mul_nonneg (Real.sqrt_nonneg _) (Real.sqrt_nonneg _)⟩

/-- Witness for C7 on the series `[1, 2, 3]`. -/
theorem C7_amended_nonneg_witness :
    annualizedSigma [(1:ℝ), 2, 3] ≠ none
      ∧ 0 ≤ (annualizedSigma [(1:ℝ), 2, 3]).getD 0 :=
  C7_amended_nonneg [(1:ℝ), 2, 3] (by norm_num)
    (by intro p hp; fin_cases hp <;> norm_num)

/-- C8: with all preconditions satisfied, the call branch is
non-decreasing in `S` and non-increasing in `K`, and the put branch is
non-increasing in `S` and non-decreasing in `K`. -/
theorem C8_monotonicity (S Sh K Kh T r sigma q : ℝ)
    (hS : 0 < S) (hSS : S ≤ Sh) (hK : 0 < K) (hKK : K ≤ Kh)
    (hT : 0 < T) (hs : 0 < sigma) :
    callPrice S K T r sigma q ≤ callPrice Sh K T r sigma q ∧
    callPrice S Kh T r sigma q ≤ callPrice S K T r sigma q ∧
    putPrice Sh K T r sigma q ≤ putPrice S K T r sigma q ∧
    putPrice S K T r sigma q ≤ putPrice S Kh T r sigma q := by
  have hSh : (0:ℝ) < Sh := lt_of_lt_of_le hS hSS
  have hKh : (0:ℝ) < Kh := lt_of_lt_of_le hK hKK
  refine ⟨?_, ?_, ?_, ?_⟩
  · exact callPrice_monotoneOn_S K T r sigma q hK hT hs
      (Set.mem_Ioi.mpr hS) (Set.mem_Ioi.mpr hSh) hSS
  · exact callPrice_antitoneOn_K S T r sigma q hS hT hs
      (Set.mem_Ioi.mpr hK) (Set.mem_Ioi.mpr hKh) hKK
  · exact putPrice_antitoneOn_S K T r sigma q hK hT hs
      (Set.mem_Ioi.mpr hS) (Set.mem_Ioi.mpr hSh) hSS
  · exact putPrice_monotoneOn_K S T r sigma q hS hT hs
      (Set.mem_Ioi.mpr hK) (Set.mem_Ioi.mpr hKh) hKK

/-- Witness for C8 at `S: 1 ≤ 2`, `K: 1 ≤ 2`, `T = sigma = 1`, `r = q = 0`. -/
theorem C8_monotonicity_witness :
    callPrice 1 1 1 0 1 0 ≤ callPrice 2 1 1 0 1 0 ∧
    callPrice 1 2 1 0 1 0 ≤ callPrice 1 1 1 0 1 0 ∧
    putPrice 2 1 1 0 1 0 ≤ putPrice 1 1 1 0 1 0 ∧
    putPrice 1 1 1 0 1 0 ≤ putPrice 1 2 1 0 1 0 :=
  C8_monotonicity 1 2 1 2 1 0 1 0 one_pos one_le_two one_pos one_le_two
    one_pos one_pos

/-- C9: the pricer fails with the invalid-option-type error (the
`ValueError` of app.py line 27) exactly when the option type is neither
`call` nor `put`; for `call` or `put` it returns a price. -/
theorem C9_invalid_option_type (S K T r sigma q : ℝ) (ot : String) :
    (black_scholes S K T r sigma q ot = Except.error BSError.invalidOptionType
        ↔ ot ≠ "call" ∧ ot ≠ "put") ∧
    (ot = "call" ∨ ot = "put" → (black_scholes S K T r sigma q ot).isOk = true) := by
  unfold black_scholes
  by_cases h1 : ot = "call"
  · subst h1
    exact ⟨by simp, fun _ => rfl⟩
  · by_cases h2 : ot = "put"
    · subst h2
      exact ⟨by simp [h1], fun _ => rfl⟩
    · refine ⟨by simp [h1, h2], fun hor => ?_⟩
      rcases hor with h | h
      · exact absurd h h1
      · exact absurd h h2

/-- Witness for C9 on the option type `x`. -/
theorem C9_invalid_option_type_witness :
    black_scholes 1 1 1 0 1 0 "x" = Except.error BSError.invalidOptionType :=
  (C9_invalid_option_type 1 1 1 0 1 0 "x").1.mpr (by refine ⟨?_, ?_⟩ <;> decide)

/-- C10: whenever the underlying pricing workflow raises (its outcome is
an exception with message `e`), `app_interface` returns the pair of the
message prefixed with `An error occurred: ` and a `None` chart, instead
of a pricing result. -/
theorem C10_catch_all {Chart : Type} (render : ℝ × ℝ × ℝ → String)
    (plotResult : Except String (Option Chart)) (e : String)
    (calcResult : Except String (ℝ × ℝ × ℝ))
    (h : calcResult = Except.error e) :
    app_interface render calcResult plotResult
      = ("An error occurred: " ++ e, none) := by
  subst h; rfl

/-- Witness for C10 on a workflow failure with message `boom`. -/
theorem C10_catch_all_witness :
    app_interface (fun _ => "ok") (Except.error "boom")
        (Except.ok (none : Option Unit))
      = ("An error occurred: " ++ "boom", none) :=
  C10_catch_all (fun _ => "ok") (Except.ok (none : Option Unit)) "boom"
    (Except.error "boom") rfl
